import Mathlib

/-!
Verification of the maya2katana core (`clip.py`, `utils.py`) against its
natural-language specification.  The Python data model (attribute values,
node records, connection endpoints), the unique-name generator, the
connection resolver, the dependency-tree builder, the layout width
computation and the attribute-mapping engine are shallowly embedded as
executable Lean definitions that mirror the source line by line; the
theorems settle the frozen claims C1 - C10.

Modelling conventions:
* Python floats are modelled as exact rationals (`Rat`); every comparison
  appearing in a claim is far from the 1e-3 tolerance boundary, so the
  verdicts agree with IEEE-754 evaluation.
* Python exceptions are modelled with `Except PyErr`; a `.error` result
  means the corresponding Python code raises.
* Python dicts whose iteration order matters are modelled as association
  lists in insertion order; `dict.update` / `d[k] = v` keep the position
  of an existing key and append new keys, exactly like CPython.
-/

set_option maxHeartbeats 1000000

/-- A Python runtime exception, as raised by the translated code. -/
inductive PyErr where
  | typeError
  | indexError
  | valueError
  | keyError
  deriving Repr, DecidableEq

/-- A Python attribute value as stored in a node record: None, int, float
(modelled as `Rat`), bool, str, tuple or list. -/
inductive MValue where
  | vnone
  | vint (n : Int)
  | vfloat (q : Rat)
  | vbool (b : Bool)
  | vstr (s : String)
  | vtuple (xs : List MValue)
  | vlist (xs : List MValue)
  deriving Repr

namespace MValue

mutual
def beqV : MValue → MValue → Bool
  | .vnone, .vnone => true
  | .vint a, .vint b => a == b
  | .vfloat a, .vfloat b => a == b
  | .vbool a, .vbool b => a == b
  | .vstr a, .vstr b => a == b
  | .vtuple a, .vtuple b => beqL a b
  | .vlist a, .vlist b => beqL a b
  | _, _ => false
def beqL : List MValue → List MValue → Bool
  | [], [] => true
  | a :: as, b :: bs => beqV a b && beqL as bs
  | _, _ => false
end

mutual
theorem beqV_refl : ∀ a : MValue, beqV a a = true
  | .vnone => rfl
  | .vint a => by simp [beqV]
  | .vfloat a => by simp [beqV]
  | .vbool a => by simp [beqV]
  | .vstr a => by simp [beqV]
  | .vtuple xs => by simp [beqV, beqL_refl xs]
  | .vlist xs => by simp [beqV, beqL_refl xs]
theorem beqL_refl : ∀ xs : List MValue, beqL xs xs = true
  | [] => rfl
  | x :: xs => by simp [beqL, beqV_refl x, beqL_refl xs]
end

mutual
theorem eq_of_beqV : ∀ a b : MValue, beqV a b = true → a = b
  | .vnone, .vnone, _ => rfl
  | .vint _, .vint _, h => by simpa [beqV] using h
  | .vfloat _, .vfloat _, h => by simpa [beqV] using h
  | .vbool _, .vbool _, h => by simpa [beqV] using h
  | .vstr _, .vstr _, h => by simpa [beqV] using h
  | .vtuple xs, .vtuple ys, h => by
      simp only [beqV] at h
      exact congrArg MValue.vtuple (eq_of_beqL xs ys h)
  | .vlist xs, .vlist ys, h => by
      simp only [beqV] at h
      exact congrArg MValue.vlist (eq_of_beqL xs ys h)
  | .vnone, .vint _, h | .vnone, .vfloat _, h | .vnone, .vbool _, h
  | .vnone, .vstr _, h | .vnone, .vtuple _, h | .vnone, .vlist _, h
  | .vint _, .vnone, h | .vint _, .vfloat _, h | .vint _, .vbool _, h
  | .vint _, .vstr _, h | .vint _, .vtuple _, h | .vint _, .vlist _, h
  | .vfloat _, .vnone, h | .vfloat _, .vint _, h | .vfloat _, .vbool _, h
  | .vfloat _, .vstr _, h | .vfloat _, .vtuple _, h | .vfloat _, .vlist _, h
  | .vbool _, .vnone, h | .vbool _, .vint _, h | .vbool _, .vfloat _, h
  | .vbool _, .vstr _, h | .vbool _, .vtuple _, h | .vbool _, .vlist _, h
  | .vstr _, .vnone, h | .vstr _, .vint _, h | .vstr _, .vfloat _, h
  | .vstr _, .vbool _, h | .vstr _, .vtuple _, h | .vstr _, .vlist _, h
  | .vtuple _, .vnone, h | .vtuple _, .vint _, h | .vtuple _, .vfloat _, h
  | .vtuple _, .vbool _, h | .vtuple _, .vstr _, h | .vtuple _, .vlist _, h
  | .vlist _, .vnone, h | .vlist _, .vint _, h | .vlist _, .vfloat _, h
  | .vlist _, .vbool _, h | .vlist _, .vstr _, h | .vlist _, .vtuple _, h =>
      by simp [beqV] at h
theorem eq_of_beqL : ∀ xs ys : List MValue, beqL xs ys = true → xs = ys
  | [], [], _ => rfl
  | x :: xs, y :: ys, h => by
      simp only [beqL, Bool.and_eq_true] at h
      rw [eq_of_beqV x y h.1, eq_of_beqL xs ys h.2]
  | [], _ :: _, h => by simp [beqL] at h
  | _ :: _, [], h => by simp [beqL] at h
end

instance : DecidableEq MValue := fun a b =>
  if h : beqV a b = true then .isTrue (eq_of_beqV a b h)
  else .isFalse (fun he => h (he ▸ beqV_refl a))

end MValue

instance {ε α : Type} [DecidableEq ε] [DecidableEq α] : DecidableEq (Except ε α) := fun a b =>
  match a, b with
  | .ok x, .ok y =>
      if h : x = y then .isTrue (by rw [h]) else .isFalse (by intro hc; cases hc; exact h rfl)
  | .error x, .error y =>
      if h : x = y then .isTrue (by rw [h]) else .isFalse (by intro hc; cases hc; exact h rfl)
  | .ok _, .error _ => .isFalse (by intro hc; cases hc)
  | .error _, .ok _ => .isFalse (by intro hc; cases hc)

/-- Python `float()` of a decimal string: optional sign, digits, optional
fractional part.  Exponent notation and surrounding whitespace are not
modelled (no mapping table or claim uses them). -/
def parseFloat (s : String) : Option Rat :=
  let cs := s.data
  let signed : Bool × List Char :=
    match cs with
    | '-' :: rest => (true, rest)
    | '+' :: rest => (false, rest)
    | _ => (false, cs)
  let neg := signed.1
  let body := signed.2
  let intDigits := body.takeWhile Char.isDigit
  let rest := body.dropWhile Char.isDigit
  let digitsVal : List Char → Nat := fun ds =>
    ds.foldl (fun acc c => acc * 10 + (c.toNat - 48)) 0
  let mk : Rat → Option Rat := fun q => some (if neg then -q else q)
  match rest with
  | [] => if intDigits.isEmpty then none else mk (digitsVal intDigits)
  | '.' :: fracPart =>
      if fracPart.all Char.isDigit ∧ ¬(intDigits.isEmpty ∧ fracPart.isEmpty) then
        mk ((digitsVal intDigits : Rat) +
          (digitsVal fracPart : Rat) / ((10 : Rat) ^ fracPart.length))
      else none
  | _ => none

/-- Python `int()` of a decimal string (optional sign, digits only;
`int("1.5")` raises, as in Python). -/
def parseInt (s : String) : Option Int :=
  let cs := s.data
  let signed : Bool × List Char :=
    match cs with
    | '-' :: rest => (true, rest)
    | '+' :: rest => (false, rest)
    | _ => (false, cs)
  let neg := signed.1
  let ds := signed.2
  if ds.isEmpty ∨ ¬ ds.all Char.isDigit then none
  else
    let n : Nat := ds.foldl (fun acc c => acc * 10 + (c.toNat - 48)) 0
    some (if neg then -(n : Int) else (n : Int))

/-- Python `float(v)`; `none` models a raised exception. -/
def pyFloat : MValue → Option Rat
  | .vnone => none
  | .vint n => some (n : Rat)
  | .vfloat q => some q
  | .vbool b => some (if b then 1 else 0)
  | .vstr s => parseFloat s
  | .vtuple _ => none
  | .vlist _ => none

/-- Python `int(v)` (truncation toward zero for floats); `none` models a
raised exception. -/
def pyInt : MValue → Option Int
  | .vnone => none
  | .vint n => some n
  | .vfloat q => some (Int.tdiv q.num (q.den : Int))
  | .vbool b => some (if b then 1 else 0)
  | .vstr s => parseInt s
  | .vtuple _ => none
  | .vlist _ => none

def isFloatV : MValue → Bool
  | .vfloat _ => true
  | _ => false

def isBoolV : MValue → Bool
  | .vbool _ => true
  | _ => false

def isIntV : MValue → Bool
  | .vint _ => true
  | _ => false

/-- Absolute value, as computed by Python `abs` on the exact rational
model of a float. -/
def pyAbs (q : Rat) : Rat := if q < 0 then -q else q

/-- Python sequence indexing `v[i]` for a non-negative index `i`
(`.error` models TypeError for non-sequences and IndexError past the
end; string indexing yields a one-character string). -/
def pyIndexSeq (v : MValue) (i : Nat) : Except PyErr MValue :=
  match v with
  | .vtuple xs =>
      match xs[i]? with
      | some x => .ok x
      | none => .error .indexError
  | .vlist xs =>
      match xs[i]? with
      | some x => .ok x
      | none => .error .indexError
  | .vstr s =>
      match s.data[i]? with
      | some c => .ok (.vstr (String.mk [c]))
      | none => .error .indexError
  | _ => .error .typeError

/-- Coercion used by `equalAttributes` when one side is a bool:
`(v == 'True') or int(v) == 1`. -/
def coerceBool (v : MValue) : Except PyErr Bool :=
  match v with
  | .vbool b => .ok b
  | .vstr s =>
      if s = "True" then .ok true
      else
        match pyInt v with
        | some n => .ok (n == 1)
        | none => .error .valueError
  | _ =>
      match pyInt v with
      | some n => .ok (n == 1)
      | none => .error .typeError

mutual
/-- clip.py `equalAttributes` (lines 1381-1402): tolerant comparison of
two attribute values; sequences are compared element-wise over the
indices of the first argument, floats within an absolute delta of 1e-3,
bools after 0/1/'True' coercion, ints after `int()` coercion, and
everything else with plain equality. -/
def equalAttributes : MValue → MValue → Except PyErr Bool
  | a, b =>
    match a with
    | .vtuple xs => equalElems xs b 0
    | .vlist xs => equalElems xs b 0
    | _ =>
      if isFloatV a ∨ isFloatV b then
        match pyFloat a, pyFloat b with
        | some x, some y => .ok (decide (pyAbs (x - y) < (1 : Rat) / 1000))
        | none, _ => .error .typeError
        | _, none => .error .typeError
      else if isBoolV a ∨ isBoolV b then
        match coerceBool a with
        | .error e => .error e
        | .ok x =>
          match coerceBool b with
          | .error e => .error e
          | .ok y => .ok (x == y)
      else if isIntV a ∨ isIntV b then
        match pyInt a, pyInt b with
        | some x, some y => .ok (x == y)
        | none, _ => .error .typeError
        | _, none => .error .typeError
      else .ok (decide (a = b))
/-- Auxiliary loop of `equalAttributes`: `for i in range(len(a)):
if not equalAttributes(a[i], b[i]): return False`. -/
def equalElems : List MValue → MValue → Nat → Except PyErr Bool
  | [], _, _ => .ok true
  | x :: xs, b, i =>
    match pyIndexSeq b i with
    | .error e => .error e
    | .ok bi =>
      match equalAttributes x bi with
      | .error e => .error e
      | .ok false => .ok false
      | .ok true => equalElems xs b (i + 1)
end

/-- C5: the tolerant attribute equality returns true for (1.0, 1.0005)
(within the absolute tolerance 1e-3), false for (1.0, 1.1), true for
(True, 1) (bool coerced from 0/1), true for ((1,2,3), (1,2,3)), and
false for ((1,2,3), (1,2,4)). -/
theorem c5_equalAttributes_cases :
    equalAttributes (.vfloat 1) (.vfloat (2001 / 2000)) = .ok true ∧
    equalAttributes (.vfloat 1) (.vfloat (11 / 10)) = .ok false ∧
    equalAttributes (.vbool true) (.vint 1) = .ok true ∧
    equalAttributes (.vtuple [.vint 1, .vint 2, .vint 3])
      (.vtuple [.vint 1, .vint 2, .vint 3]) = .ok true ∧
    equalAttributes (.vtuple [.vint 1, .vint 2, .vint 3])
      (.vtuple [.vint 1, .vint 2, .vint 4]) = .ok false := by
  refine ⟨?_, ?_, by decide, by decide, by decide⟩
  · simp only [equalAttributes, isFloatV, pyFloat, pyAbs]
    norm_num
  · simp only [equalAttributes, isFloatV, pyFloat, pyAbs]
    norm_num

/-! ### Unique-name generator (clip.py getUniqueName, utils.py unique_name) -/

/-- Python strings handled by the unique-name generator are modelled as
code-point sequences, so that the chr/ord arithmetic of the source
matches CPython (whose code space has no gaps).  'A' = 65, 'Z' = 90. -/
abbrev PyStr := List Nat

/-- One iteration of the while-loop body of `getUniqueName`:
`c = chr(ord(name[-1]) + 1); if c > 'Z': c = 'AA'; name = name[:-1] + c`.
The empty case is unreachable under the nonempty invariant maintained by
the generator. -/
def nameStep (l : PyStr) : PyStr :=
  match l.getLast? with
  | none => []
  | some lastC =>
      if lastC + 1 > 90 then l.dropLast ++ [65, 65]
      else l.dropLast ++ [lastC + 1]

/-- The while-loop of `getUniqueName`: step the candidate until it is not
among the used names.  The Python loop carries no fuel; `nameFuel` below
is proved sufficient, so the fuelled model computes the same result. -/
def findFree (used : List PyStr) : PyStr → Nat → Option PyStr
  | l, fuel =>
    if l ∈ used then
      match fuel with
      | 0 => none
      | fuel' + 1 => findFree used (nameStep l) fuel'
    else some l

def maxUsedLen (used : List PyStr) : Nat :=
  used.foldr (fun m acc => max m.length acc) 0

def nameFuel (used : List PyStr) : Nat := 91 * (maxUsedLen used + 1) + 1

/-- The pre-loop adjustment of `getUniqueName` on a colliding name:
`if name[-1] > 'Z': name = name + 'A'`. -/
def nameInit (name : PyStr) : PyStr :=
  if name.getLast?.getD 0 > 90 then name ++ [65] else name

/-- clip.py `getUniqueName` (lines 65-79): produce a free name and append
it to the used-name list.  `utils.py unique_name` shares this exact core
(its extra `reset` parameter only reinitialises the used list). -/
def getUniqueName (used : List PyStr) (name : PyStr) : PyStr × List PyStr :=
  if name ∈ used then
    let result := (findFree used (nameInit name) (nameFuel used)).getD (nameInit name)
    (result, used ++ [result])
  else (name, used ++ [name])

/-- Calling the generator once per requested name, threading the
used-name state exactly as the module-level `usedNames` list does. -/
def processUnique (used : List PyStr) : List PyStr → List PyStr × List PyStr
  | [] => ([], used)
  | n :: rest =>
      let r := getUniqueName used n
      let rs := processUnique r.2 rest
      (r.1 :: rs.1, rs.2)

/-- Termination measure for the while-loop: grows by at least one per
`nameStep`, and is bounded on every used name. -/
def namePhi (l : PyStr) : Nat := 91 * l.length + min (l.getLast?.getD 0) 91

theorem getLast?_append_one {α : Type} (xs : List α) (a : α) :
    (xs ++ [a]).getLast? = some a := by
  induction xs with
  | nil => rfl
  | cons x xs ih =>
      cases xs with
      | nil => rfl
      | cons y ys =>
          simp only [List.cons_append] at ih ⊢
          rw [List.getLast?_cons_cons]
          exact ih

theorem nameStep_ne_nil {l : PyStr} (h : l ≠ []) : nameStep l ≠ [] := by
  obtain ⟨lastC, hlast⟩ := Option.isSome_iff_exists.mp (List.getLast?_isSome.mpr h)
  unfold nameStep
  rw [hlast]
  by_cases hc : lastC + 1 > 90 <;> simp [hc]

theorem namePhi_step {l : PyStr} (h : l ≠ []) : namePhi l + 1 ≤ namePhi (nameStep l) := by
  obtain ⟨lastC, hlast⟩ := Option.isSome_iff_exists.mp (List.getLast?_isSome.mpr h)
  have hlen : 1 ≤ l.length := List.length_pos.mpr h
  have hdl : l.dropLast.length = l.length - 1 := List.length_dropLast l
  unfold nameStep namePhi
  rw [hlast]
  by_cases hc : lastC + 1 > 90
  · have h2 : l.dropLast ++ [65, 65] = (l.dropLast ++ [65]) ++ [65] := by
      simp
    simp only [if_pos hc, h2, getLast?_append_one, List.length_append,
      List.length_append, hdl, Option.getD_some]
    simp only [List.length_cons, List.length_nil]
    omega
  · simp only [if_neg hc, getLast?_append_one, List.length_append, hdl,
      Option.getD_some, List.length_cons, List.length_nil]
    omega

theorem length_le_maxUsedLen {used : List PyStr} {m : PyStr} (h : m ∈ used) :
    m.length ≤ maxUsedLen used := by
  induction used with
  | nil => cases h
  | cons u us ih =>
      unfold maxUsedLen
      rcases List.mem_cons.mp h with h1 | h1
      · subst h1; simp [List.foldr]
      · have := ih h1
        simp only [List.foldr]
        exact le_trans this (le_max_right _ _)

theorem namePhi_le_of_mem {used : List PyStr} {m : PyStr} (h : m ∈ used) :
    namePhi m ≤ 91 * (maxUsedLen used + 1) := by
  have h1 : m.length ≤ maxUsedLen used := length_le_maxUsedLen h
  unfold namePhi
  have h2 : min (m.getLast?.getD 0) 91 ≤ 91 := min_le_right _ _
  have h3 : 91 * m.length ≤ 91 * maxUsedLen used := Nat.mul_le_mul_left _ h1
  omega

theorem findFree_isSome (used : List PyStr) :
    ∀ fuel l, l ≠ [] → 91 * (maxUsedLen used + 1) + 1 ≤ fuel + namePhi l →
      (findFree used l fuel).isSome := by
  intro fuel
  induction fuel with
  | zero =>
      intro l _ hb
      unfold findFree
      by_cases hm : l ∈ used
      · exact absurd (namePhi_le_of_mem hm) (by omega)
      · simp [hm]
  | succ fuel ih =>
      intro l hne hb
      unfold findFree
      by_cases hm : l ∈ used
      · simp only [if_pos hm]
        exact ih (nameStep l) (nameStep_ne_nil hne)
          (le_trans hb (by have := namePhi_step hne; omega))
      · simp [hm]

theorem findFree_not_mem (used : List PyStr) :
    ∀ fuel l r, findFree used l fuel = some r → r ∉ used := by
  intro fuel
  induction fuel with
  | zero =>
      intro l r h
      unfold findFree at h
      by_cases hm : l ∈ used
      · simp [hm] at h
      · simp only [if_neg hm] at h
        cases h; exact hm
  | succ fuel ih =>
      intro l r h
      unfold findFree at h
      by_cases hm : l ∈ used
      · simp only [if_pos hm] at h
        exact ih _ _ h
      · simp only [if_neg hm] at h
        cases h; exact hm

theorem findFree_iterate (used : List PyStr) :
    ∀ fuel l r, findFree used l fuel = some r → ∃ k, r = nameStep^[k] l := by
  intro fuel
  induction fuel with
  | zero =>
      intro l r h
      unfold findFree at h
      by_cases hm : l ∈ used
      · simp [hm] at h
      · simp only [if_neg hm] at h
        cases h; exact ⟨0, rfl⟩
  | succ fuel ih =>
      intro l r h
      unfold findFree at h
      by_cases hm : l ∈ used
      · simp only [if_pos hm] at h
        obtain ⟨k, hk⟩ := ih _ _ h
        exact ⟨k + 1, by rw [hk, Function.iterate_succ_apply]⟩
      · simp only [if_neg hm] at h
        cases h; exact ⟨0, rfl⟩

theorem nameInit_ne_nil {name : PyStr} (h : name ≠ []) : nameInit name ≠ [] := by
  unfold nameInit
  by_cases hc : name.getLast?.getD 0 > 90 <;> simp [hc, h]

theorem getUniqueName_not_mem {used : List PyStr} {name : PyStr} (h : name ≠ []) :
    (getUniqueName used name).1 ∉ used := by
  unfold getUniqueName
  by_cases hm : name ∈ used
  · simp only [if_pos hm]
    have hs := findFree_isSome used (nameFuel used) (nameInit name) (nameInit_ne_nil h)
      (by unfold nameFuel; omega)
    obtain ⟨r, hr⟩ := Option.isSome_iff_exists.mp hs
    simp only [hr, Option.getD_some]
    exact findFree_not_mem used _ _ _ hr
  · simp only [if_neg hm]
    exact hm

theorem getUniqueName_used_eq (used : List PyStr) (name : PyStr) :
    (getUniqueName used name).2 = used ++ [(getUniqueName used name).1] := by
  unfold getUniqueName
  by_cases hm : name ∈ used <;> simp [hm]

theorem getUniqueName_shape {used : List PyStr} (name : PyStr) :
    (getUniqueName used name).1 = name ∨
      ∃ k, (getUniqueName used name).1 = nameStep^[k] (nameInit name) := by
  unfold getUniqueName
  by_cases hm : name ∈ used
  · simp only [if_pos hm]
    cases hf : findFree used (nameInit name) (nameFuel used) with
    | none => simp only [hf, Option.getD_none]; exact Or.inr ⟨0, rfl⟩
    | some r =>
        simp only [hf, Option.getD_some]
        exact Or.inr (findFree_iterate used _ _ _ hf)
  · simp [hm]

theorem processUnique_spec :
    ∀ (reqs : List PyStr) (used : List PyStr), (∀ n ∈ reqs, n ≠ []) →
      (processUnique used reqs).2 = used ++ (processUnique used reqs).1 ∧
      (∀ r ∈ (processUnique used reqs).1, r ∉ used) ∧
      (processUnique used reqs).1.Nodup ∧
      List.Forall₂ (fun n r => r = n ∨ ∃ k, r = nameStep^[k] (nameInit n))
        reqs (processUnique used reqs).1 := by
  intro reqs
  induction reqs with
  | nil => intro used _; exact ⟨by simp [processUnique], by simp [processUnique],
      by simp [processUnique], by simp [processUnique]⟩
  | cons n rest ih =>
      intro used hne
      have hn : n ≠ [] := hne n (List.mem_cons_self n rest)
      have hrest : ∀ m ∈ rest, m ≠ [] := fun m hm => hne m (List.mem_cons_of_mem n hm)
      obtain ⟨ih1, ih2, ih3, ih4⟩ := ih (getUniqueName used n).2 hrest
      have hu2 : (getUniqueName used n).2 = used ++ [(getUniqueName used n).1] :=
        getUniqueName_used_eq used n
      have hr_not : (getUniqueName used n).1 ∉ used := getUniqueName_not_mem hn
      refine ⟨?_, ?_, ?_, ?_⟩
      · show (processUnique (getUniqueName used n).2 rest).2 =
          used ++ ((getUniqueName used n).1 :: (processUnique (getUniqueName used n).2 rest).1)
        rw [ih1, hu2]
        simp
      · intro r hr
        rcases List.mem_cons.mp hr with h1 | h1
        · subst h1; exact hr_not
        · have := ih2 r h1
          rw [hu2] at this
          intro hc
          exact this (List.mem_append_left _ hc)
      · refine List.nodup_cons.mpr ⟨?_, ih3⟩
        intro hc
        have := ih2 _ hc
        rw [hu2] at this
        exact this (List.mem_append_right _ (List.mem_singleton.mpr rfl))
      · exact List.Forall₂.cons (getUniqueName_shape n) ih4

/-- C1 (amended): calling the unique-name generator once per requested
(nonempty) name yields pairwise-distinct results; each result is either
the requested name unchanged or is derived from it by the generator's
increment rule (append 'A' first when the final character compares
greater than 'Z', then repeatedly increment the final character,
replacing it by "AA" when the increment passes 'Z').  The original
claim's "appended suffix" shape is refuted by `c1_counterexample`:
an incremented final character is not an appended suffix. -/
theorem c1_unique_names (used : List PyStr) (reqs : List PyStr)
    (h : ∀ n ∈ reqs, n ≠ []) :
    (processUnique used reqs).1.Nodup ∧
    List.Forall₂ (fun n r => r = n ∨ ∃ k, r = nameStep^[k] (nameInit n))
      reqs (processUnique used reqs).1 :=
  ⟨(processUnique_spec reqs used h).2.2.1, (processUnique_spec reqs used h).2.2.2⟩

/-- Witness for C1: the amended statement on the concrete request list
["A", "A"] (code points [65]). -/
theorem c1_unique_names_witness :
    (processUnique [] [[65], [65]]).1.Nodup ∧
    List.Forall₂ (fun n r => r = n ∨ ∃ k, r = nameStep^[k] (nameInit n))
      [[65], [65]] (processUnique [] [[65], [65]]).1 :=
  c1_unique_names [] [[65], [65]] (by decide)

/-- Counterexample for C1 as stated: requesting "a1" (code points
[97, 49]) twice yields "a1" then "a2" — the second result is neither the
requested name unchanged nor the requested name with an appended suffix
(it is not even an extension of the requested name: the trailing "1" was
replaced by "2"). -/
theorem c1_counterexample :
    (processUnique [] [[97, 49], [97, 49]]).1 = [[97, 49], [97, 50]] ∧
    List.isPrefixOf [97, 49] [97, 50] = false ∧
    ([97, 50] : PyStr) ≠ [97, 49] := by
  refine ⟨by decide, by decide, by decide⟩

/-! ### Node records, association-list dictionaries, connection resolver -/

/-- A connection endpoint value `{'node', 'originalPort', 'weight'}`
stored under a local input-port key. -/
structure Endpoint where
  node : String
  originalPort : Option String
  weight : Option Int
  deriving Repr, DecidableEq

/-- A renaming instruction `{'name', 'originalPort'}` recorded under an
old node name. -/
structure Renaming where
  name : String
  originalPort : Option String
  deriving Repr, DecidableEq

/-- A node record dictionary.  Dict keys that may be absent in the source
('name', 'type', 'weight', 'postprocess') are modelled as `Option`; the
postprocess hook is kept as a plain tag because no claim invokes it. -/
structure NodeRec where
  name : Option String
  ntype : Option String
  attributes : List (String × MValue)
  connections : List (String × Endpoint)
  renamings : List (String × Renaming)
  weight : Option Int
  postprocess : Option String
  deriving Repr, DecidableEq

/-- The NodeRecord store: `{name: record}` in insertion order. -/
abbrev Store := List (String × NodeRec)

/-- Python dict access `d.get(k)` (keys unique in dicts built by the
source, so first match is the match). -/
def lookupA {α : Type} : List (String × α) → String → Option α
  | [], _ => none
  | (k', v) :: rest, k => if k' = k then some v else lookupA rest k

/-- Python `d[k] = v`: overwrite in place when the key exists, else
append, exactly like CPython insertion order. -/
def setKey {α : Type} : List (String × α) → String → α → List (String × α)
  | [], k, v => [(k, v)]
  | (k', v') :: rest, k, v =>
      if k' = k then (k, v) :: rest else (k', v') :: setKey rest k v

/-- Python `del d[k]` (the source only deletes keys it just looked up). -/
def removeKey {α : Type} : List (String × α) → String → List (String × α)
  | [], _ => []
  | (k', v') :: rest, k => if k' = k then rest else (k', v') :: removeKey rest k

/-- Python `dict.update`. -/
def updateAll {α : Type} (m : List (String × α)) (entries : List (String × α)) :
    List (String × α) :=
  entries.foldl (fun acc kv => setKey acc kv.1 kv.2) m

/-- clip.py renameConnections lines 1735-1737 (utils.py 98-100): flatten
every node's renamings into one table with `dict.update`. -/
def collectRenamings (nodes : Store) : List (String × Renaming) :=
  nodes.foldl (fun acc p => updateAll acc p.2.renamings) []

/-- Body of the rename pass for one connection endpoint (clip.py lines
1740-1746): rewrite the endpoint's node name unless that would point the
holder at itself, and overwrite the original port when the renaming
carries a truthy one. -/
def renameEndpoint (table : List (String × Renaming)) (nodeName : String)
    (ep : Endpoint) : Endpoint :=
  match lookupA table ep.node with
  | none => ep
  | some rn =>
      if nodeName = rn.name then ep
      else
        let ep1 : Endpoint := { ep with node := rn.name }
        match rn.originalPort with
        | some p => if p = "" then ep1 else { ep1 with originalPort := some p }
        | none => ep1

/-- clip.py renameConnections (lines 1734-1746) / utils.py
rename_connections (94-115): rewrite every connection endpoint of every
node through the flattened renaming table. -/
def renameConnections (nodes : Store) : Store :=
  let table := collectRenamings nodes
  nodes.map (fun p =>
    (p.1, { p.2 with connections :=
        p.2.connections.map (fun c => (c.1, renameEndpoint table p.1 c.2)) }))

theorem lookupA_mem {α : Type} : ∀ {l : List (String × α)} {k : String} {v : α},
    lookupA l k = some v → (k, v) ∈ l := by
  intro l
  induction l with
  | nil => intro k v h; cases h
  | cons p rest ih =>
      intro k v h
      obtain ⟨k', v'⟩ := p
      unfold lookupA at h
      by_cases hk : k' = k
      · rw [if_pos hk] at h
        cases h
        subst hk
        exact List.mem_cons_self _ _
      · rw [if_neg hk] at h
        exact List.mem_cons_of_mem _ (ih h)

theorem renameConnections_eq (s : Store) :
    renameConnections s = s.map (fun p =>
      (p.1, { p.2 with connections :=
          p.2.connections.map (fun c => (c.1, renameEndpoint (collectRenamings s) p.1 c.2)) })) :=
  rfl

theorem collectRenamings_renameConnections (s : Store) :
    collectRenamings (renameConnections s) = collectRenamings s := by
  unfold renameConnections collectRenamings
  rw [List.foldl_map]

theorem renameEndpoint_idem {table : List (String × Renaming)}
    (H : ∀ p ∈ table, lookupA table p.2.name = none)
    (nm : String) (ep : Endpoint) :
    renameEndpoint table nm (renameEndpoint table nm ep) = renameEndpoint table nm ep := by
  unfold renameEndpoint
  cases hl : lookupA table ep.node with
  | none => simp [hl]
  | some rn =>
      by_cases hg : nm = rn.name
      · simp [hl, hg]
      · have h2 : lookupA table rn.name = none := H _ (lookupA_mem hl)
        cases hp : rn.originalPort with
        | none => simp [hl, hg, hp, h2]
        | some p =>
            by_cases hpe : p = "" <;> simp [hl, hg, hp, hpe, h2]

/-- C4 (amended): the rename pass is idempotent provided no renaming
target is itself a renamed key (no chained renamings); with chained
renamings a second run applies one more renaming step, refuted by
`c4_counterexample` below. -/
theorem c4_rename_idempotent (s : Store)
    (H : ∀ p ∈ collectRenamings s, lookupA (collectRenamings s) p.2.name = none) :
    renameConnections (renameConnections s) = renameConnections s := by
  rw [renameConnections_eq (renameConnections s), collectRenamings_renameConnections s,
    renameConnections_eq s, List.map_map]
  apply List.map_congr_left
  intro p _
  obtain ⟨nm, nd⟩ := p
  obtain ⟨a1, a2, a3, conns, a5, a6, a7⟩ := nd
  simp only [Function.comp_apply, Prod.mk.injEq, true_and]
  simp only [NodeRec.mk.injEq, true_and, and_true]
  rw [List.map_map]
  apply List.map_congr_left
  intro c _
  obtain ⟨ck, cep⟩ := c
  simp only [Function.comp_apply, Prod.mk.injEq, true_and]
  exact renameEndpoint_idem H nm cep

def c4CexStore : Store :=
  [("n1", { name := some "n1", ntype := none, attributes := [], connections := [],
            renamings := [("X", { name := "Y", originalPort := none })],
            weight := none, postprocess := none }),
   ("n2", { name := some "n2", ntype := none, attributes := [],
            connections := [("inp", { node := "X", originalPort := none, weight := none })],
            renamings := [("Y", { name := "Z", originalPort := none })],
            weight := none, postprocess := none })]

/-- Counterexample for C4 as stated: with chained renamings (X renamed to
Y by one node, Y renamed to Z by another) the second run of the rename
pass rewrites the endpoint again (X becomes Y after one run, Z after
two), so running it twice is not a no-op. -/
theorem c4_counterexample :
    renameConnections (renameConnections c4CexStore) ≠ renameConnections c4CexStore := by
  decide

def c4WitStore : Store :=
  [("n1", { name := some "n1", ntype := none, attributes := [],
            connections := [("inp", { node := "X", originalPort := none, weight := none })],
            renamings := [("X", { name := "Y", originalPort := none })],
            weight := none, postprocess := none })]

/-- Witness for C4 (amended) on a store with one unchained renaming. -/
theorem c4_rename_idempotent_witness :
    renameConnections (renameConnections c4WitStore) = renameConnections c4WitStore :=
  c4_rename_idempotent c4WitStore (by decide)

/-- Blank out the two endpoint fields the rename pass may write (node
name and original port), keeping the port key and the endpoint weight. -/
def stripEndpoint (c : String × Endpoint) : String × Endpoint :=
  (c.1, { c.2 with node := "", originalPort := none })

/-- Projection hiding exactly the endpoint fields the rename pass may
write: the node name and the original port of each connection value. -/
def stripEndpointTargets (nd : NodeRec) : NodeRec :=
  { nd with connections := nd.connections.map stripEndpoint }

theorem renameEndpoint_weight (table : List (String × Renaming)) (nm : String)
    (ep : Endpoint) : (renameEndpoint table nm ep).weight = ep.weight := by
  unfold renameEndpoint
  cases lookupA table ep.node with
  | none => rfl
  | some rn =>
      obtain ⟨rname, rport⟩ := rn
      by_cases hg : nm = rname
      · simp [hg]
      · cases rport with
        | none => simp [hg]
        | some p => by_cases hpe : p = "" <;> simp [hg, hpe]

theorem stripEndpoint_renameEndpoint (table : List (String × Renaming)) (nm : String)
    (c : String × Endpoint) :
    stripEndpoint (c.1, renameEndpoint table nm c.2) = stripEndpoint c := by
  obtain ⟨ck, cn, cp, cw⟩ := c
  have hw := renameEndpoint_weight table nm ⟨cn, cp, cw⟩
  unfold stripEndpoint
  cases hre : renameEndpoint table nm ⟨cn, cp, cw⟩ with
  | mk rn rp rww =>
      rw [hre] at hw
      have hw2 : rww = cw := hw
      simp [hw2]

/-- C10: the rename pass mutates only the node-name and original-port
fields inside connection endpoint values — after stripping those two
fields, the store is unchanged: every node's own name, type, attributes,
renamings, weight, postprocess tag, connection port keys and endpoint
weights are exactly the same after the pass as before it. -/
theorem c10_rename_frame (s : Store) :
    (renameConnections s).map (fun p => (p.1, stripEndpointTargets p.2)) =
      s.map (fun p => (p.1, stripEndpointTargets p.2)) := by
  rw [renameConnections_eq s, List.map_map]
  apply List.map_congr_left
  intro p _
  obtain ⟨nm, nd⟩ := p
  obtain ⟨a1, a2, a3, conns, a5, a6, a7⟩ := nd
  simp only [Function.comp_apply, Prod.mk.injEq, true_and]
  unfold stripEndpointTargets
  simp only [NodeRec.mk.injEq, true_and, and_true]
  rw [List.map_map]
  apply List.map_congr_left
  intro c _
  simp only [Function.comp_apply]
  exact stripEndpoint_renameEndpoint (collectRenamings s) nm c

/-! ### Dependency tree builder and layout width -/

def KATANA_NODE_WIDTH : Nat := 200
def KATANA_SPACE_WIDTH : Nat := 60
def KATANA_ROW_HEIGHT : Nat := 100

/-- A layout-tree branch `{'name': ..., 'children': [...]}` with the
optional 'weight' key that `checkOrphanedNodes` may add. -/
inductive KTree where
  | mk (name : String) (weight : Option Int) (children : List KTree)
  deriving Repr

namespace KTree

def name : KTree → String
  | .mk n _ _ => n

def weight : KTree → Option Int
  | .mk _ w _ => w

def children : KTree → List KTree
  | .mk _ _ c => c

mutual
def beqT : KTree → KTree → Bool
  | .mk n w cs, .mk n' w' cs' => n == n' && w == w' && beqF cs cs'
def beqF : List KTree → List KTree → Bool
  | [], [] => true
  | a :: as, b :: bs => beqT a b && beqF as bs
  | _, _ => false
end

mutual
theorem beqT_refl : ∀ t : KTree, beqT t t = true
  | .mk n w cs => by simp [beqT, beqF_refl cs]
theorem beqF_refl : ∀ l : List KTree, beqF l l = true
  | [] => rfl
  | t :: ts => by simp [beqF, beqT_refl t, beqF_refl ts]
end

mutual
theorem eq_of_beqT : ∀ a b : KTree, beqT a b = true → a = b
  | .mk n w cs, .mk n' w' cs', h => by
      simp only [beqT, Bool.and_eq_true, beq_iff_eq] at h
      obtain ⟨⟨h1, h2⟩, h3⟩ := h
      subst h1
      subst h2
      exact congrArg (KTree.mk n w) (eq_of_beqF cs cs' h3)
theorem eq_of_beqF : ∀ a b : List KTree, beqF a b = true → a = b
  | [], [], _ => rfl
  | a :: as, b :: bs, h => by
      simp only [beqF, Bool.and_eq_true] at h
      rw [eq_of_beqT a b h.1, eq_of_beqF as bs h.2]
  | [], _ :: _, h => by simp [beqF] at h
  | _ :: _, [], h => by simp [beqF] at h
end

instance : DecidableEq KTree := fun a b =>
  if h : beqT a b = true then .isTrue (eq_of_beqT a b h)
  else .isFalse (fun he => h (he ▸ beqT_refl a))

end KTree

/-- clip.py isConnected (lines 1590-1599): true when the destination
record has some connection endpoint naming the source. -/
def isConnected (sourceName : String) (dest : NodeRec) : Bool :=
  dest.connections.any (fun c => sourceName = c.2.node)

/-- clip.py checkOrphanedNodes (lines 1601-1619): copy a truthy store
weight onto the candidate, then move every current root-level child that
the candidate consumes into the candidate's children (preserving order).
A candidate name absent from the store would raise KeyError in Python;
buildTree only inserts store records, so the `none` fallbacks are dead. -/
def adoptOrphans (nodes : Store) (rootChildren : List KTree) (cand : KTree) :
    List KTree × KTree :=
  let candW : Option Int :=
    match lookupA nodes cand.name with
    | some r =>
        match r.weight with
        | some w => if w ≠ 0 then some w else cand.weight
        | none => cand.weight
    | none => cand.weight
  let consumes : KTree → Bool := fun leaf =>
    match lookupA nodes cand.name with
    | some r => isConnected leaf.name r
    | none => false
  let adopted := rootChildren.filter consumes
  let remaining := rootChildren.filter (fun leaf => ! consumes leaf)
  (remaining, .mk cand.name candW (cand.children ++ adopted))

/-- The insertion test of insertNode: `if leafNode in nodes: if
isConnected(node, nodes[leafNode])`. -/
def branchHit (nodes : Store) (candName : String) (branchName : String) : Bool :=
  match lookupA nodes branchName with
  | some r => isConnected candName r
  | none => false

mutual
/-- Search part of clip.py insertNode (lines 1621-1646): find in
pre-order the first branch whose store record consumes the candidate
and append the candidate to that branch's children. -/
def placeInTree (nodes : Store) (cand : KTree) : KTree → Option KTree
  | .mk n w cs =>
      if branchHit nodes cand.name n then some (.mk n w (cs ++ [cand]))
      else
        match placeInForest nodes cand cs with
        | some cs' => some (.mk n w cs')
        | none => none
/-- Pre-order search over a sibling list (the `for leaf in
branch['children']` loop of insertNode). -/
def placeInForest (nodes : Store) (cand : KTree) : List KTree → Option (List KTree)
  | [] => none
  | t :: ts =>
      match placeInTree nodes cand t with
      | some t' => some (t' :: ts)
      | none =>
          match placeInForest nodes cand ts with
          | some ts' => some (t :: ts')
          | none => none
end

/-- clip.py insertNode as called from buildTree (branch = tree, level 0):
`checkOrphanedNodes` runs exactly once at the moment of insertion; the
candidate lands under the first pre-order branch whose record consumes
it (the virtual root itself only matches when a store record is named
"root"), otherwise it becomes a new root-level child.  On a cyclic store
Python would re-parent a subtree into itself; like the spec, the model
assumes the acyclic shading-graph invariant, under which the matched
branch is never inside the adopted set and the upfront adoption below is
the order Python performs. -/
def insertNodeF (nodes : Store) (tree : KTree) (cand : KTree) : KTree :=
  if branchHit nodes cand.name tree.name then
    .mk tree.name tree.weight ((adoptOrphans nodes tree.children cand).1 ++
      [(adoptOrphans nodes tree.children cand).2])
  else
    match placeInForest nodes (adoptOrphans nodes tree.children cand).2
        (adoptOrphans nodes tree.children cand).1 with
    | some kids => .mk tree.name tree.weight kids
    | none => .mk tree.name tree.weight ((adoptOrphans nodes tree.children cand).1 ++
        [(adoptOrphans nodes tree.children cand).2])

/-- One iteration of the buildTree loop: records without a 'name' key
are skipped (`if 'name' in node`). -/
def insertStep (nodes : Store) (tree : KTree) (p : String × NodeRec) : KTree :=
  match p.2.name with
  | some nm => insertNodeF nodes tree (.mk nm none [])
  | none => tree

/-- clip.py buildTree (lines 1648-1658), tree-construction part: insert
every named store record, in store order, under a virtual root.  The
`calcTreeWidth` / `calcTreePos` annotations the Python function also
performs do not alter the tree shape and are modelled separately
(`calcTreeWidth` below; x/y positions are pure annotations no claim
refers to). -/
def buildTree (nodes : Store) : KTree :=
  nodes.foldl (insertStep nodes) (.mk "root" none [])

mutual
/-- clip.py calcTreeWidth (lines 1684-1699): a childless branch gets the
fixed node width; a branch with children gets the sum of the children's
widths plus one fixed spacing per gap. -/
def calcTreeWidth : KTree → Nat
  | .mk _ _ [] => KATANA_NODE_WIDTH
  | .mk _ _ (c :: cs) =>
      sumWidths (c :: cs) + ((c :: cs).length - 1) * KATANA_SPACE_WIDTH
/-- The accumulation loop of calcTreeWidth over the children. -/
def sumWidths : List KTree → Nat
  | [] => 0
  | t :: ts => calcTreeWidth t + sumWidths ts
end

def c2Node (nm : String) (conns : List (String × Endpoint)) : NodeRec :=
  { name := some nm, ntype := some "t", attributes := [], connections := conns,
    renamings := [], weight := none, postprocess := none }

def c2A : String × NodeRec := ("A", c2Node "A" [])

def c2B : String × NodeRec :=
  ("B", c2Node "B" [("inB", { node := "A", originalPort := none, weight := none })])

def c2C : String × NodeRec :=
  ("C", c2Node "C" [("inC", { node := "B", originalPort := none, weight := none })])

/-- The three-node store of claim C2: A has no connections, B has one
connection whose endpoint is A, C has one connection whose endpoint
is B. -/
def c2Store : Store := [c2A, c2B, c2C]

/-- The chain the code actually produces: consumer on top. -/
def c2Chain : KTree :=
  .mk "root" none [.mk "C" none [.mk "B" none [.mk "A" none []]]]

/-- Counterexample for C2 as stated: buildTree places the consumer at
the top, so the virtual root's only child is C (not A), and the tree is
not the claimed chain root - A - B - C. -/
theorem c2_counterexample :
    (buildTree c2Store).children.map KTree.name = ["C"] ∧
    buildTree c2Store ≠
      .mk "root" none [.mk "A" none [.mk "B" none [.mk "C" none []]]] := by
  refine ⟨by decide, by decide⟩

/-- C2 (amended): the three-node store produces the single chain
root - C - B - A (each node's consumer is its parent), with no other
root-level children, and this holds for every insertion order of the
three records. -/
theorem c2_chain :
    buildTree [c2A, c2B, c2C] = c2Chain ∧
    buildTree [c2A, c2C, c2B] = c2Chain ∧
    buildTree [c2B, c2A, c2C] = c2Chain ∧
    buildTree [c2B, c2C, c2A] = c2Chain ∧
    buildTree [c2C, c2A, c2B] = c2Chain ∧
    buildTree [c2C, c2B, c2A] = c2Chain := by
  refine ⟨by decide, by decide, by decide, by decide, by decide, by decide⟩

/-- C8: the width computation assigns every childless branch the fixed
node-width constant 200, and every branch with children the sum of its
children's computed widths plus (childCount - 1) times the fixed
spacing constant 60. -/
theorem c8_calcTreeWidth (t : KTree) :
    (t.children = [] → calcTreeWidth t = 200) ∧
    (t.children ≠ [] →
      calcTreeWidth t = (t.children.map calcTreeWidth).sum +
        (t.children.length - 1) * 60) := by
  have hsum : ∀ l : List KTree, sumWidths l = (l.map calcTreeWidth).sum := by
    intro l
    induction l with
    | nil => rfl
    | cons x xs ih => simp [sumWidths, ih]
  obtain ⟨n, w, cs⟩ := t
  cases cs with
  | nil => exact ⟨fun _ => rfl, fun h => absurd rfl h⟩
  | cons c cs =>
      refine ⟨(fun h => nomatch h), (fun _ => ?_)⟩
      show sumWidths (c :: cs) + ((c :: cs).length - 1) * KATANA_SPACE_WIDTH = _
      rw [hsum]
      rfl

/-- Witness for C8 at a childless branch and at a branch with two
children. -/
theorem c8_calcTreeWidth_witness :
    calcTreeWidth (.mk "leaf" none []) = 200 ∧
    calcTreeWidth (.mk "p" none [.mk "l1" none [], .mk "l2" none []]) =
      ([KTree.mk "l1" none [], KTree.mk "l2" none []].map calcTreeWidth).sum +
        (2 - 1) * 60 := by
  refine ⟨(c8_calcTreeWidth (.mk "leaf" none [])).1 rfl, ?_⟩
  exact (c8_calcTreeWidth (.mk "p" none [.mk "l1" none [], .mk "l2" none []])).2 (by decide)

/-! ### Names occurring in a built tree (used for claim C9) -/

mutual
/-- All branch names of a layout tree, in pre-order. -/
def treeNames : KTree → List String
  | .mk n _ cs => n :: forestNames cs
/-- All branch names of a sibling list. -/
def forestNames : List KTree → List String
  | [] => []
  | t :: ts => treeNames t ++ forestNames ts
end

theorem forestNames_append (a b : List KTree) :
    forestNames (a ++ b) = forestNames a ++ forestNames b := by
  induction a with
  | nil => simp [forestNames]
  | cons t ts ih => simp [forestNames, ih]

theorem mem_forestNames (x : String) :
    ∀ l : List KTree, x ∈ forestNames l ↔ ∃ t ∈ l, x ∈ treeNames t := by
  intro l
  induction l with
  | nil => simp [forestNames]
  | cons t ts ih => simp [forestNames, List.mem_append, ih]

mutual
theorem placeInTree_names_sub (nodes : Store) (cand : KTree) :
    ∀ (t t' : KTree), placeInTree nodes cand t = some t' →
      ∀ x, x ∈ treeNames t' → x ∈ treeNames t ∨ x ∈ treeNames cand
  | .mk n w cs, t', h, x, hx => by
      unfold placeInTree at h
      by_cases hb : branchHit nodes cand.name n = true
      · rw [if_pos hb] at h
        cases h
        simp only [treeNames, forestNames_append, List.mem_cons, List.mem_append] at hx
        simp only [treeNames, List.mem_cons]
        rcases hx with h1 | h1 | h1
        · exact Or.inl (Or.inl h1)
        · exact Or.inl (Or.inr h1)
        · simp only [forestNames, List.append_nil] at h1
          exact Or.inr h1
      · rw [if_neg hb] at h
        cases hcs : placeInForest nodes cand cs with
        | none => rw [hcs] at h; cases h
        | some cs' =>
            rw [hcs] at h
            cases h
            simp only [treeNames, List.mem_cons] at hx ⊢
            rcases hx with h1 | h1
            · exact Or.inl (Or.inl h1)
            · rcases placeInForest_names_sub nodes cand cs cs' hcs x h1 with h2 | h2
              · exact Or.inl (Or.inr h2)
              · exact Or.inr h2
theorem placeInForest_names_sub (nodes : Store) (cand : KTree) :
    ∀ (l : List KTree) (l' : List KTree), placeInForest nodes cand l = some l' →
      ∀ x, x ∈ forestNames l' → x ∈ forestNames l ∨ x ∈ treeNames cand
  | [], _, h, _, _ => by cases h
  | t :: ts, l', h, x, hx => by
      unfold placeInForest at h
      cases htt : placeInTree nodes cand t with
      | some t' =>
          rw [htt] at h
          cases h
          simp only [forestNames, List.mem_append] at hx ⊢
          rcases hx with h1 | h1
          · rcases placeInTree_names_sub nodes cand t t' htt x h1 with h2 | h2
            · exact Or.inl (Or.inl h2)
            · exact Or.inr h2
          · exact Or.inl (Or.inr h1)
      | none =>
          rw [htt] at h
          cases hts : placeInForest nodes cand ts with
          | none => rw [hts] at h; cases h
          | some ts' =>
              rw [hts] at h
              cases h
              simp only [forestNames, List.mem_append] at hx ⊢
              rcases hx with h1 | h1
              · exact Or.inl (Or.inl h1)
              · rcases placeInForest_names_sub nodes cand ts ts' hts x h1 with h2 | h2
                · exact Or.inl (Or.inr h2)
                · exact Or.inr h2
end

theorem adoptOrphans_names (nodes : Store) (rootChildren : List KTree) (cand : KTree) :
    (∀ x, x ∈ forestNames (adoptOrphans nodes rootChildren cand).1 →
        x ∈ forestNames rootChildren) ∧
    (∀ x, x ∈ treeNames (adoptOrphans nodes rootChildren cand).2 →
        x ∈ treeNames cand ∨ x ∈ forestNames rootChildren) := by
  obtain ⟨cn, cw, ccs⟩ := cand
  unfold adoptOrphans
  constructor
  · intro x hx
    rw [mem_forestNames] at hx ⊢
    obtain ⟨t, ht, hxt⟩ := hx
    exact ⟨t, List.mem_of_mem_filter ht, hxt⟩
  · intro x hx
    simp only [treeNames, forestNames_append, List.mem_cons, List.mem_append] at hx
    simp only [treeNames, List.mem_cons]
    rcases hx with h1 | h1 | h1
    · exact Or.inl (Or.inl h1)
    · exact Or.inl (Or.inr h1)
    · right
      rw [mem_forestNames] at h1 ⊢
      obtain ⟨t, ht, hxt⟩ := h1
      exact ⟨t, List.mem_of_mem_filter ht, hxt⟩

theorem insertNodeF_names (nodes : Store) (tree : KTree) (cand : KTree) :
    ∀ x, x ∈ treeNames (insertNodeF nodes tree cand) →
      x ∈ treeNames tree ∨ x ∈ treeNames cand := by
  obtain ⟨tn, tw, tcs⟩ := tree
  obtain ⟨cn, cw, ccs⟩ := cand
  set cand := KTree.mk cn cw ccs with hcand
  have hA := adoptOrphans_names nodes tcs cand
  intro x hx
  unfold insertNodeF at hx
  simp only [KTree.name, KTree.weight, KTree.children, hcand] at hx
  have hRoot : ∀ y, y ∈ treeNames (KTree.mk tn tw
      ((adoptOrphans nodes tcs cand).1 ++ [(adoptOrphans nodes tcs cand).2])) →
      y ∈ treeNames (KTree.mk tn tw tcs) ∨ y ∈ treeNames cand := by
    intro y hy
    simp only [treeNames, forestNames_append, List.mem_cons, List.mem_append] at hy
    simp only [treeNames, List.mem_cons]
    rcases hy with h1 | h1 | h1
    · exact Or.inl (Or.inl h1)
    · exact Or.inl (Or.inr (hA.1 y h1))
    · simp only [forestNames, List.append_nil] at h1
      rcases hA.2 y h1 with h2 | h2
      · exact Or.inr (by simpa [hcand, treeNames] using h2)
      · exact Or.inl (Or.inr h2)
  by_cases hb : branchHit nodes cn tn = true
  · rw [if_pos hb] at hx
    exact hRoot x hx
  · rw [if_neg hb] at hx
    cases hp : placeInForest nodes (adoptOrphans nodes tcs cand).2
        (adoptOrphans nodes tcs cand).1 with
    | none =>
        rw [hp] at hx
        exact hRoot x hx
    | some kids =>
        rw [hp] at hx
        simp only [treeNames, List.mem_cons] at hx
        simp only [treeNames, List.mem_cons]
        rcases hx with h1 | h1
        · exact Or.inl (Or.inl h1)
        · rcases placeInForest_names_sub nodes _ _ _ hp x h1 with h2 | h2
          · exact Or.inl (Or.inr (hA.1 x h2))
          · rcases hA.2 x h2 with h3 | h3
            · exact Or.inr (by simpa [hcand, treeNames] using h3)
            · exact Or.inl (Or.inr h3)

theorem foldl_insertStep_names (nodes : Store) :
    ∀ (s' : List (String × NodeRec)) (tree : KTree) (x : String),
      x ∈ treeNames (List.foldl (insertStep nodes) tree s') →
      x ∈ treeNames tree ∨ ∃ p ∈ s', p.2.name = some x := by
  intro s'
  induction s' with
  | nil =>
      intro tree x hx
      exact Or.inl (by simpa using hx)
  | cons q qs ih =>
      intro tree x hx
      simp only [List.foldl_cons] at hx
      rcases ih (insertStep nodes tree q) x hx with h1 | h1
      · unfold insertStep at h1
        cases hq : q.2.name with
        | none => rw [hq] at h1; exact Or.inl h1
        | some nm =>
            rw [hq] at h1
            rcases insertNodeF_names nodes tree (.mk nm none []) x h1 with h2 | h2
            · exact Or.inl h2
            · simp only [treeNames, forestNames, List.mem_cons, List.not_mem_nil,
                or_false] at h2
              right
              exact ⟨q, List.mem_cons_self _ _, by rw [hq, h2]⟩
      · right
        obtain ⟨p, hp, hn⟩ := h1
        exact ⟨p, List.mem_cons_of_mem _ hp, hn⟩

theorem buildTree_names (nodes : Store) (x : String) :
    x ∈ treeNames (buildTree nodes) → x = "root" ∨ ∃ p ∈ nodes, p.2.name = some x := by
  intro hx
  unfold buildTree at hx
  rcases foldl_insertStep_names nodes nodes (.mk "root" none []) x hx with h | h
  · left
    simpa [treeNames, forestNames] using h
  · right
    exact h

/-! ### Target parameter documents and the attribute-mapping engine -/

/-- One group_parameter slot of a node's parameter document: the
optional enable element's current value, the optional type string, the
presence of a value element, its optional 'value' and 'size' attributes
and the values of the indexed i0..iN sub-elements (an i-element whose
'value' attribute is absent carries `none`). -/
structure Slot where
  enable : Option String
  ptype : Option String
  hasValue : Bool
  value : Option String
  size : Option String
  subs : List (Option String)
  deriving Repr, DecidableEq

/-- A node's parameter document: root attributes, the optional name
string_parameter, the parameter slots (clip.py finds them anywhere
under the 'parameters' group, hence one flat association list) and the
ports the final wiring writes to. -/
structure Doc where
  attribs : List (String × String)
  nameParam : Option String
  params : List (String × Slot)
  ports : List (String × Option String)
  deriving Repr, DecidableEq

/-- Transform callables `(key, value) -> value` stored in a schema. -/
def TransformFn : Type := String → MValue → Except PyErr MValue

/-- Hook callables stored under the reserved customProcess key, invoked
as `(xmlGroup, node)` and free to mutate both. -/
def HookFn : Type := Doc → NodeRec → Except PyErr (Doc × NodeRec)

/-- A mapping-schema entry value: None (identity), a string (rename), a
list (enum translation), a tuple `(destKey, inner)`, a callable
transform, a nested schema dict, or the hook stored under the reserved
customProcess key. -/
inductive MapSpec where
  | identity
  | renameKey (dest : String)
  | enumList (options : List MValue)
  | renamed (dest : String) (inner : MapSpec)
  | transf (f : TransformFn)
  | group (children : List (String × MapSpec))
  | hook (f : HookFn)

/-- The destination key an entry resolves to: paramKey by default,
overridden by a string spec or by the first element of a tuple spec
(whose inner string, if any, wins, exactly as the sequential type checks
of lines 1426-1441 apply). -/
def destOf (k : String) : MapSpec → String
  | .renameKey d => d
  | .renamed _ (.renameKey d2) => d2
  | .renamed d _ => d
  | _ => k

/-- The nested children of an entry, when its spec carries any. -/
def childrenOf : MapSpec → Option (List (String × MapSpec))
  | .group cs => some cs
  | .renamed _ (.group cs) => some cs
  | _ => none

/-- The connection-key rename performed by a string spec (lines
1438-1441): `node['connections'][destKey] = connection;
del node['connections'][connectionName]`. -/
def renameConnKey (node : NodeRec) (k dest : String) : NodeRec :=
  match lookupA node.connections k with
  | none => node
  | some conn =>
      { node with connections := removeKey (setKey node.connections dest conn) k }

/-- Lines 1426-1445: resolve an entry spec into destination key, enum
options and transform, performing the string-spec connection rename.
A hook callable outside customProcess and a doubly nested tuple never
occur in the shipped mapping tables; the model raises TypeError for the
former and keeps the latter childless (Python would crash recursing
into a tuple). -/
def resolveSpec (node : NodeRec) (k : String) :
    MapSpec → Except PyErr (String × Option (List MValue) × Option TransformFn × NodeRec)
  | .identity => .ok (k, none, none, node)
  | .renameKey d => .ok (d, none, none, renameConnKey node k d)
  | .enumList l => .ok (k, some l, none, node)
  | .transf f => .ok (k, none, some f, node)
  | .group _ => .ok (k, none, none, node)
  | .hook _ => .error .typeError
  | .renamed d inner =>
      match inner with
      | .enumList l => .ok (d, some l, none, node)
      | .renameKey d2 => .ok (d2, none, none, renameConnKey node k d2)
      | .transf f => .ok (d, none, some f, node)
      | .group _ => .ok (d, none, none, node)
      | .identity => .ok (d, none, none, node)
      | .renamed _ _ => .ok (d, none, none, node)
      | .hook _ => .error .typeError

/-- clip.py hasConnection (lines 1720-1721). -/
def hasConnection (node : NodeRec) (param : String) : Bool :=
  (lookupA node.connections param).isSome

/-- Python `mayaValue == 0` (line 1510): true exactly for int 0, float
0.0 and False; tuples, strings and None never compare equal to 0. -/
def pyEqZero : MValue → Bool
  | .vint n => n == 0
  | .vfloat q => q.num == 0
  | .vbool b => !b
  | _ => false

/-- Python `str(v)` for the values the mapping writes.  Floats print
their exact rational value and sequences a placeholder: no claim
depends on these spellings, only on whether and where a write
occurred. -/
def pyStr : MValue → String
  | .vnone => "None"
  | .vint n => toString n
  | .vfloat q => toString q
  | .vbool b => if b then "True" else "False"
  | .vstr s => s
  | .vtuple _ => "<tuple>"
  | .vlist _ => "<list>"

/-- Python `len(v)` / `v[i]` for the tuple-write loop (lines 1496-1498):
defined for sequences, TypeError otherwise. -/
def pyElems : MValue → Option (List MValue)
  | .vtuple xs => some xs
  | .vlist xs => some xs
  | .vstr s => some (s.data.map (fun c => .vstr (String.mk [c])))
  | _ => none

/-- FloatAttr/IntAttr coercion of one i-element value (lines 1466-1471);
a missing 'value' attribute is None, which both coercions reject. -/
def readSub (ptype : Option String) : Option String → Except PyErr MValue
  | some s =>
      if ptype.getD "" = "FloatAttr" then
        match parseFloat s with
        | some q => .ok (.vfloat q)
        | none => .error .valueError
      else if ptype.getD "" = "IntAttr" then
        match parseInt s with
        | some n => .ok (.vint n)
        | none => .error .valueError
      else .ok (.vstr s)
  | none =>
      if ptype.getD "" = "FloatAttr" ∨ ptype.getD "" = "IntAttr" then .error .typeError
      else .ok .vnone

/-- The `for i in range(int(tuples))` loop of lines 1466-1472; a missing
i-element makes `.get` raise AttributeError. -/
def readTupleAux (slot : Slot) (i : Nat) : Nat → Except PyErr (List MValue)
  | 0 => .ok []
  | n + 1 =>
      match slot.subs[i]? with
      | none => .error .typeError
      | some sub =>
          match readSub slot.ptype sub with
          | .error e => .error e
          | .ok v =>
              match readTupleAux slot (i + 1) n with
              | .error e => .error e
              | .ok vs => .ok (v :: vs)

/-- Lines 1457-1472: read a slot's current default value.  Returns the
value (vnone for a missing 'value' attribute) and whether the tuple
branch was taken (truthiness of the 'size' attribute when the 'value'
attribute is empty — the same flag that later selects the tuple write
path). -/
def readDefault (slot : Slot) : Except PyErr (MValue × Bool) :=
  let raw := slot.value
  if raw = none ∨ raw = some "" then
    match slot.size with
    | some sz =>
        if sz = "" then
          .ok ((match raw with | some s => .vstr s | none => .vnone), false)
        else
          match parseInt sz with
          | none => .error .valueError
          | some n =>
              match readTupleAux slot 0 n.toNat with
              | .error e => .error e
              | .ok vs => .ok (.vtuple vs, true)
    | none => .ok ((match raw with | some s => .vstr s | none => .vnone), false)
  else
    .ok (.vstr (raw.getD ""), false)

/-- Python list indexing for the enum translation (line 1489): int and
bool indices only, with negative wrap-around. -/
def pyListIndex (l : List MValue) (v : MValue) : Except PyErr MValue :=
  match v with
  | .vint n =>
      if 0 ≤ n then
        match l[n.toNat]? with
        | some x => .ok x
        | none => .error .indexError
      else if 0 ≤ n + (l.length : Int) then
        match l[(n + (l.length : Int)).toNat]? with
        | some x => .ok x
        | none => .error .indexError
      else .error .indexError
  | .vbool b =>
      match l[if b then 1 else 0]? with
      | some x => .ok x
      | none => .error .indexError
  | _ => .error .typeError

/-- Lines 1487-1489: `if options: if mayaValue is not None:
mayaValue = options[mayaValue]`. -/
def applyOptions (opts : Option (List MValue)) (mv : MValue) : Except PyErr MValue :=
  match opts with
  | none => .ok mv
  | some l => if mv = .vnone then .ok mv else pyListIndex l mv

/-- Lines 1490-1491: `if processField: mayaValue =
processField(paramKey, mayaValue)`. -/
def applyTransform (tf : Option TransformFn) (k : String) (mv : MValue) :
    Except PyErr MValue :=
  match tf with
  | none => .ok mv
  | some f => f k mv

/-- The tuple write loop (lines 1495-1498): overwrite the i-th
sub-element value for every component of the new value. -/
def writeTupleAux (subs : List (Option String)) (i : Nat) :
    List MValue → Except PyErr (List (Option String))
  | [] => .ok subs
  | x :: xs =>
      if i < subs.length then
        writeTupleAux (subs.set i (some (pyStr x))) (i + 1) xs
      else .error .typeError

/-- Lines 1495-1503: write the changed value into the slot (scalar bools
coerced to int first). -/
def writeSlot (slot : Slot) (isTuple : Bool) (mv : MValue) : Except PyErr Slot :=
  if isTuple then
    match pyElems mv with
    | none => .error .typeError
    | some xs =>
        match writeTupleAux slot.subs 0 xs with
        | .error e => .error e
        | .ok subs' => .ok { slot with subs := subs' }
  else
    let mv2 : MValue :=
      match mv with
      | .vbool b => .vint (if b then 1 else 0)
      | _ => mv
    .ok { slot with value := some (pyStr mv2) }

/-- Lines 1504-1505: set the enable element to '1' when present. -/
def enableSlot (slot : Slot) : Slot :=
  match slot.enable with
  | some _ => { slot with enable := some "1" }
  | none => slot

/-- Lines 1448-1512 of iterateMappingRecursive given the resolved
destination key, options and transform: parameter lookup, default-value
read, enum/transform application, tolerant compare, write and enable. -/
def entryValuePhase (doc : Doc) (node1 : NodeRec) (k dest : String)
    (opts : Option (List MValue)) (tf : Option TransformFn) :
    Except PyErr (Doc × NodeRec × Option (MValue × Bool)) :=
  match lookupA doc.params dest with
  | none => .ok (doc, node1, none)
  | some slot =>
      if slot.hasValue = false then .ok (doc, node1, none)
      else
        match readDefault slot with
        | .error e => .error e
        | .ok (value, isTuple) =>
            let mv0 : MValue :=
              match lookupA node1.attributes k with
              | none => .vnone
              | some (.vlist [x]) => x
              | some v => v
            let mvf : MValue × Bool :=
              if hasConnection node1 dest then (value, true) else (mv0, false)
            match applyOptions opts mvf.1 with
            | .error e => .error e
            | .ok mv2 =>
                match applyTransform tf k mv2 with
                | .error e => .error e
                | .ok mv3 =>
                    if mv3 = .vnone then .ok (doc, node1, some (mv3, mvf.2))
                    else
                      match equalAttributes mv3 value with
                      | .error e => .error e
                      | .ok true => .ok (doc, node1, some (mv3, mvf.2))
                      | .ok false =>
                          match writeSlot slot isTuple mv3 with
                          | .error e => .error e
                          | .ok slot' =>
                              let ps := setKey doc.params dest (enableSlot slot')
                              .ok ({ doc with params := ps }, node1,
                                some (mv3, mvf.2))

/-- The per-entry body of clip.py iterateMappingRecursive (lines
1409-1512) applied to one schema entry.  The third component of a
successful result is the resolved (value, force) pair — the data the
zero-pruning rule of line 1510 inspects — and is `none` exactly when the
parameter slot or its value element was absent and the whole value block
was skipped. -/
def entryCore (doc : Doc) (node : NodeRec) (k : String) (spec : MapSpec) :
    Except PyErr (Doc × NodeRec × Option (MValue × Bool)) :=
  if k = "customProcess" then
    match spec with
    | .hook f =>
        match f doc node with
        | .error e => .error e
        | .ok (d, n) => .ok (d, n, none)
    | _ => .error .typeError
  else if k = "customColor" then
    match spec with
    | .enumList (r :: g :: b :: _) =>
        let at3 := setKey (setKey (setKey doc.attribs "ns_colorr" (pyStr r))
          "ns_colorg" (pyStr g)) "ns_colorb" (pyStr b)
        .ok ({ doc with attribs := at3 }, node, none)
    | _ => .error .typeError
  else
    match resolveSpec node k spec with
    | .error e => .error e
    | .ok (dest, opts, tf, node1) => entryValuePhase doc node1 k dest opts tf

/-- One entry step plus the pruning decision of line 1510: children are
pruned exactly when a value was resolved, compares equal to Python 0,
and the force flag (an active connection on the destination key) is not
set. -/
def processEntry (doc : Doc) (node : NodeRec) (k : String) (spec : MapSpec) :
    Except PyErr (Doc × NodeRec × Bool) :=
  match entryCore doc node k spec with
  | .error e => .error e
  | .ok (d, n, res) =>
      .ok (d, n, match res with
        | some (mv, force) => pyEqZero mv && !force
        | none => false)

/-- The resolved (value, force) pair of an entry, as the engine computes
it (a projection of `entryCore`). -/
def resolvedValue (doc : Doc) (node : NodeRec) (k : String) (spec : MapSpec) :
    Except PyErr (Option (MValue × Bool)) :=
  match entryCore doc node k spec with
  | .error e => .error e
  | .ok (_, _, res) => .ok res

mutual
/-- clip.py iterateMappingRecursive (lines 1404-1516): fold the schema
entries over the document and node. -/
def iterateMapping : List (String × MapSpec) → Doc → NodeRec →
    Except PyErr (Doc × NodeRec)
  | [], doc, node => .ok (doc, node)
  | (k, spec) :: rest, doc, node =>
      match iterateEntry k spec doc node with
      | .error e => .error e
      | .ok (doc2, node2) => iterateMapping rest doc2 node2
/-- One entry of iterateMappingRecursive including the recursion into
its nested children (`if paramChildren:`), unless the zero-pruning rule
of line 1510 cleared them. -/
def iterateEntry (k : String) (spec : MapSpec) (doc : Doc) (node : NodeRec) :
    Except PyErr (Doc × NodeRec) :=
  match processEntry doc node k spec with
  | .error e => .error e
  | .ok (doc1, node1, pruned) =>
      match spec with
      | .group cs =>
          if cs.isEmpty || pruned then .ok (doc1, node1)
          else iterateMapping cs doc1 node1
      | .renamed _ (.group cs) =>
          if cs.isEmpty || pruned then .ok (doc1, node1)
          else iterateMapping cs doc1 node1
      | _ => .ok (doc1, node1)
end

/-- clip.py processNode (lines 1564-1588): skip records without a name,
without a registered mapping entry, with a None mapping entry, or
without a template file; otherwise stamp the node name into the template
and run the mapping engine.  The template file on disk is modelled as a
provider function (`none` = file absent); a record with a name but no
'type' key would raise KeyError. -/
def processNode (mappings : List (String × Option (List (String × MapSpec))))
    (templates : String → Option Doc) (node : NodeRec) :
    Except PyErr (Option (Doc × NodeRec)) :=
  match node.name with
  | none => .ok none
  | some nodeName =>
      match node.ntype with
      | none => .error .keyError
      | some t =>
          match lookupA mappings t with
          | none => .ok none
          | some none => .ok none
          | some (some schema) =>
              match templates t with
              | none => .ok none
              | some tmpl =>
                  match iterateMapping schema
                      { tmpl with
                        attribs := setKey tmpl.attribs "name" nodeName,
                        nameParam := tmpl.nameParam.map (fun _ => nodeName) } node with
                  | .error e => .error e
                  | .ok (d, n) => .ok (some (d, n))

/-- The per-node mapping loop of generateXML (lines 1829-1834).  There
is no try/except around processNode, so the first exception raised while
mapping one node propagates and aborts the whole loop. -/
def mapAllNodes (mappings : List (String × Option (List (String × MapSpec))))
    (templates : String → Option Doc) :
    Store → Except PyErr (List (String × Doc) × Store)
  | [] => .ok ([], [])
  | (nm, nd) :: rest =>
      match processNode mappings templates nd with
      | .error e => .error e
      | .ok result =>
          match mapAllNodes mappings templates rest with
          | .error e => .error e
          | .ok (docs, rest') =>
              match result with
              | some (d, nd') => .ok ((nm, d) :: docs, (nm, nd') :: rest')
              | none => .ok (docs, (nm, nd) :: rest')

/-! ### Final port wiring (claim C7) -/

/-- The channel-suffix regex of clip.py getOutConnection (line 1715):
`^out(?:Color|Value)([RGBAXYZ])` applied to the original port. -/
def matchOutChannel (s : String) : Option Char :=
  let cs := s.data
  let after : List Char → Option Char := fun rest =>
    match rest with
    | c :: _ =>
        if c = 'R' ∨ c = 'G' ∨ c = 'B' ∨ c = 'A' ∨ c = 'X' ∨ c = 'Y' ∨ c = 'Z' then
          some c
        else none
    | [] => none
  if cs.take 8 = "outColor".data then after (cs.drop 8)
  else if cs.take 8 = "outValue".data then after (cs.drop 8)
  else none

/-- clip.py getOutConnection (lines 1713-1718): dotted source path
`node.out` with a lowercase channel suffix when the original port names
a known multi-channel output. -/
def getOutConnection (ep : Endpoint) : String :=
  match matchOutChannel (ep.originalPort.getD "") with
  | some c => String.intercalate "." [ep.node, "out", String.mk [c.toLower]]
  | none => String.intercalate "." [ep.node, "out"]

/-- clip.py connectXml (lines 1723-1727): set the port's source path
whenever the port element exists — there is no check that the source
node is present in the output set, and no warning path. -/
def connectXml (doc : Doc) (dest : String) (source : Endpoint) : Doc :=
  match lookupA doc.ports dest with
  | some _ => { doc with ports := setKey doc.ports dest (some (getOutConnection source)) }
  | none => doc

/-- clip.py establishConnections (lines 1729-1732): wire every
connection of every emitted document.  (A document key absent from the
store would raise KeyError in Python; generateXML builds the documents
from the store, so the `none` branch is dead.) -/
def establishConnections (nodes : Store) (docs : List (String × Doc)) :
    List (String × Doc) :=
  docs.map (fun p =>
    match lookupA nodes p.1 with
    | some nd => (p.1, nd.connections.foldl (fun d c => connectXml d c.1 c.2) p.2)
    | none => (p.1, p.2))

/-- C7 (amended): when a connection endpoint names a node missing from
the final output set, the wiring still completes without aborting, no
warning is emitted (the code has no warning path), and the port is not
left unconnected: its source is set to the missing node's output path,
a dangling reference. -/
theorem c7_unresolved_endpoint (nodes : Store) (nm : String) (nd : NodeRec)
    (dest : String) (ep : Endpoint) (d : Doc)
    (h1 : lookupA nodes nm = some nd)
    (h2 : nd.connections = [(dest, ep)])
    (h3 : (lookupA d.ports dest).isSome)
    (h4 : ep.node ≠ nm) :
    establishConnections nodes [(nm, d)] =
      [(nm, { d with ports := setKey d.ports dest (some (getOutConnection ep)) })] := by
  obtain ⟨v, hv⟩ := Option.isSome_iff_exists.mp h3
  unfold establishConnections
  simp only [List.map_cons, List.map_nil, h1, h2, List.foldl_cons, List.foldl_nil]
  unfold connectXml
  rw [hv]

def c7Node : NodeRec :=
  { name := some "n", ntype := some "t", attributes := [],
    connections := [("inp", { node := "ghost", originalPort := none, weight := none })],
    renamings := [], weight := none, postprocess := none }

def c7Doc : Doc :=
  { attribs := [], nameParam := none, params := [], ports := [("inp", none)] }

/-- Counterexample for C7 as stated: the endpoint "ghost" is missing
from the single-document output set, yet the emitted port is not left
unconnected — it is wired to the dangling path "ghost.out" — and no
warning is reported (the code has no warning path at all). -/
theorem c7_counterexample :
    establishConnections [("n", c7Node)] [("n", c7Doc)] =
      [("n", { attribs := [], nameParam := none, params := [],
               ports := [("inp", some "ghost.out")] })] := by
  decide

/-- The wired document the amended C7 statement produces at the
concrete input. -/
def c7DocWired : Doc :=
  { attribs := [], nameParam := none, params := [],
    ports := setKey c7Doc.ports "inp" (some (getOutConnection ⟨"ghost", none, none⟩)) }

/-- Witness for C7 (amended) at the same concrete input. -/
theorem c7_unresolved_endpoint_witness :
    establishConnections [("n", c7Node)] [("n", c7Doc)] = [("n", c7DocWired)] :=
  c7_unresolved_endpoint [("n", c7Node)] "n" c7Node "inp"
    ⟨"ghost", none, none⟩ c7Doc
    (by decide) (by decide) (by decide) (by decide)

/-! ### Claim C6: a mapping error aborts the whole translation loop -/

/-- C6 (amended): generateXML's per-node mapping loop (lines 1829-1834)
has no exception handler: if every node before some node maps without
raising and that node's mapping raises, the error propagates out of the
whole loop, so no remaining node is translated and no document list is
produced.  The claim as stated (error caught and logged at the node
boundary, remaining nodes still translated) is refuted by
`c6_counterexample`. -/
theorem c6_error_propagates
    (mappings : List (String × Option (List (String × MapSpec))))
    (templates : String → Option Doc) (pre : Store) (nm : String)
    (nd : NodeRec) (post : Store) (e : PyErr)
    (hpre : ∀ p ∈ pre, ∃ r, processNode mappings templates p.2 = .ok r)
    (hbad : processNode mappings templates nd = .error e) :
    mapAllNodes mappings templates (pre ++ (nm, nd) :: post) = .error e := by
  induction pre with
  | nil =>
      simp only [List.nil_append]
      unfold mapAllNodes
      rw [hbad]
  | cons q qs ih =>
      obtain ⟨r, hr⟩ := hpre q (List.mem_cons_self _ _)
      have ih2 := ih (fun p hp => hpre p (List.mem_cons_of_mem _ hp))
      simp only [List.cons_append]
      obtain ⟨qn, qd⟩ := q
      unfold mapAllNodes
      rw [hr, ih2]

def c6Mappings : List (String × Option (List (String × MapSpec))) :=
  [("badType", some [("p", .enumList [.vint 7])]),
   ("goodType", some [("q", .identity)])]

def c6SlotDefault : Slot :=
  { enable := none, ptype := none, hasValue := true, value := some "1",
    size := none, subs := [] }

def c6Tmpl : Doc :=
  { attribs := [], nameParam := none,
    params := [("p", c6SlotDefault), ("q", c6SlotDefault)], ports := [] }

def c6Templates : String → Option Doc := fun _ => some c6Tmpl

/-- A node whose enum translation indexes position 5 of a one-element
option list: `options[mayaValue]` raises IndexError. -/
def c6NodeBad : NodeRec :=
  { name := some "n1", ntype := some "badType", attributes := [("p", .vint 5)],
    connections := [], renamings := [], weight := none, postprocess := none }

def c6NodeGood : NodeRec :=
  { name := some "n2", ntype := some "goodType", attributes := [("q", .vint 3)],
    connections := [], renamings := [], weight := none, postprocess := none }

/-- The document the good node alone would produce. -/
def c6GoodDoc : Doc :=
  { attribs := [("name", "n2")], nameParam := none,
    params := [("p", c6SlotDefault),
      ("q", { enable := none, ptype := none, hasValue := true, value := some "3",
              size := none, subs := [] })],
    ports := [] }

/-- Counterexample for C6 as stated: with the out-of-range enum node
first, the whole-graph loop returns the IndexError instead of a
document list — the remaining (perfectly translatable) node is never
emitted, so the error was not caught at the node boundary. -/
theorem c6_counterexample :
    mapAllNodes c6Mappings c6Templates
      [("n1", c6NodeBad), ("n2", c6NodeGood)] = .error .indexError ∧
    processNode c6Mappings c6Templates c6NodeGood =
      .ok (some (c6GoodDoc, c6NodeGood)) := by
  refine ⟨by decide, by decide⟩

/-- Witness for C6 (amended): one successfully mapped node before the
raising node, and the loop still returns the bare error. -/
theorem c6_error_propagates_witness :
    mapAllNodes c6Mappings c6Templates
      [("n2", c6NodeGood), ("n1", c6NodeBad)] = .error .indexError := by
  have h := c6_error_propagates c6Mappings c6Templates [("n2", c6NodeGood)]
    "n1" c6NodeBad [] .indexError
    (fun p hp => by
      cases hp with
      | head => exact ⟨some (c6GoodDoc, c6NodeGood), by decide⟩
      | tail _ hq => cases hq)
    (by decide)
  simpa using h

/-! ### Claim C3: the zero-pruning rule of the mapping engine -/

theorem iterateMapping_single (k : String) (spec : MapSpec) (doc : Doc) (node : NodeRec) :
    iterateMapping [(k, spec)] doc node = iterateEntry k spec doc node := by
  unfold iterateMapping
  cases h : iterateEntry k spec doc node with
  | error e => rfl
  | ok p =>
      obtain ⟨d2, n2⟩ := p
      rfl

theorem entryValuePhase_force (doc : Doc) (nodeIn : NodeRec) (k dest : String)
    (opts : Option (List MValue)) (tf : Option TransformFn)
    (d : Doc) (n : NodeRec) (mv : MValue) (force : Bool)
    (h : entryValuePhase doc nodeIn k dest opts tf = .ok (d, n, some (mv, force))) :
    n = nodeIn ∧ force = hasConnection nodeIn dest := by
  unfold entryValuePhase at h
  repeat' split at h
  all_goals try simp_all
  all_goals repeat' split at h
  all_goals simp_all

theorem iterateEntry_group_eq (k : String) (cs : List (String × MapSpec)) (doc : Doc)
    (node : NodeRec) :
    iterateEntry k (.group cs) doc node =
      match processEntry doc node k (.group cs) with
      | .error e => .error e
      | .ok (doc1, node1, pruned) =>
          if cs.isEmpty || pruned then .ok (doc1, node1)
          else iterateMapping cs doc1 node1 := rfl

theorem iterateEntry_renamed_group_eq (k dd : String) (cs : List (String × MapSpec))
    (doc : Doc) (node : NodeRec) :
    iterateEntry k (.renamed dd (.group cs)) doc node =
      match processEntry doc node k (.renamed dd (.group cs)) with
      | .error e => .error e
      | .ok (doc1, node1, pruned) =>
          if cs.isEmpty || pruned then .ok (doc1, node1)
          else iterateMapping cs doc1 node1 := rfl

theorem iterateEntry_group (k : String) (cs : List (String × MapSpec)) (doc : Doc)
    (node : NodeRec) (doc1 : Doc) (node1 : NodeRec) (pruned : Bool)
    (h : processEntry doc node k (.group cs) = .ok (doc1, node1, pruned)) :
    iterateEntry k (.group cs) doc node =
      if cs.isEmpty || pruned then .ok (doc1, node1) else iterateMapping cs doc1 node1 := by
  rw [iterateEntry_group_eq, h]

theorem iterateEntry_renamed_group (k dd : String) (cs : List (String × MapSpec))
    (doc : Doc) (node : NodeRec) (doc1 : Doc) (node1 : NodeRec) (pruned : Bool)
    (h : processEntry doc node k (.renamed dd (.group cs)) = .ok (doc1, node1, pruned)) :
    iterateEntry k (.renamed dd (.group cs)) doc node =
      if cs.isEmpty || pruned then .ok (doc1, node1) else iterateMapping cs doc1 node1 := by
  rw [iterateEntry_renamed_group_eq, h]

/-- C3: when the Mapping Engine resolves a schema entry's value to
exactly 0 (in Python's `== 0` sense) and the node has no active
connection under the entry's destination key, it neither writes into nor
recurses through the entry's nested children — the engine's result is
the entry's own effect alone; when the node does have an active
connection under the destination key, the force flag is set and the
engine still recurses into the children whatever the resolved value is
(in particular even when it is 0).  The first conjunct grounds the force
flag: it is set exactly when the destination key has an active
connection. -/
theorem c3_mapping_pruning (doc : Doc) (node : NodeRec) (k : String) (spec : MapSpec)
    (cs : List (String × MapSpec)) (doc1 : Doc) (node1 : NodeRec)
    (mv : MValue) (force : Bool)
    (hcs : childrenOf spec = some cs) (hne : cs.isEmpty = false)
    (hcore : entryCore doc node k spec = .ok (doc1, node1, some (mv, force))) :
    force = hasConnection node1 (destOf k spec) ∧
    (pyEqZero mv = true → force = false →
      iterateMapping [(k, spec)] doc node = .ok (doc1, node1)) ∧
    (force = true →
      iterateMapping [(k, spec)] doc node = iterateMapping cs doc1 node1) := by
  have hcore0 := hcore
  have hks : spec = .group cs ∨ ∃ dd, spec = .renamed dd (.group cs) := by
    cases spec with
    | group g =>
        simp only [childrenOf, Option.some.injEq] at hcs
        exact Or.inl (by rw [hcs])
    | renamed dd inner =>
        cases inner with
        | group g =>
            simp only [childrenOf, Option.some.injEq] at hcs
            exact Or.inr ⟨dd, by rw [hcs]⟩
        | identity => exact absurd hcs (by simp [childrenOf])
        | renameKey d2 => exact absurd hcs (by simp [childrenOf])
        | enumList l => exact absurd hcs (by simp [childrenOf])
        | transf f => exact absurd hcs (by simp [childrenOf])
        | renamed d2 i2 => exact absurd hcs (by simp [childrenOf])
        | hook f => exact absurd hcs (by simp [childrenOf])
    | identity => simp [childrenOf] at hcs
    | renameKey d2 => simp [childrenOf] at hcs
    | enumList l => simp [childrenOf] at hcs
    | transf f => simp [childrenOf] at hcs
    | hook f => simp [childrenOf] at hcs
  by_cases hk1 : k = "customProcess"
  · rcases hks with hs | ⟨dd, hs⟩ <;>
      (subst hs; unfold entryCore at hcore; rw [if_pos hk1] at hcore; simp at hcore)
  by_cases hk2 : k = "customColor"
  · rcases hks with hs | ⟨dd, hs⟩ <;>
      (subst hs; unfold entryCore at hcore; rw [if_neg hk1, if_pos hk2] at hcore;
        simp at hcore)
  rcases hks with hs | ⟨dd, hs⟩
  · subst hs
    unfold entryCore at hcore
    rw [if_neg hk1, if_neg hk2] at hcore
    simp only [resolveSpec] at hcore
    have hf := entryValuePhase_force doc node k k none none doc1 node1 mv force hcore
    have hpe : processEntry doc node k (.group cs) =
        .ok (doc1, node1, pyEqZero mv && !force) := by
      unfold processEntry
      rw [hcore0]
    refine ⟨?_, ?_, ?_⟩
    · simp only [destOf]
      rw [hf.1]
      exact hf.2
    · intro hz hforce
      rw [iterateMapping_single, iterateEntry_group k cs doc node doc1 node1 _ hpe]
      rw [hz, hforce]
      simp
    · intro hforce
      rw [iterateMapping_single, iterateEntry_group k cs doc node doc1 node1 _ hpe]
      rw [hforce, hne]
      simp
  · subst hs
    unfold entryCore at hcore
    rw [if_neg hk1, if_neg hk2] at hcore
    simp only [resolveSpec] at hcore
    have hf := entryValuePhase_force doc node k dd none none doc1 node1 mv force hcore
    have hpe : processEntry doc node k (.renamed dd (.group cs)) =
        .ok (doc1, node1, pyEqZero mv && !force) := by
      unfold processEntry
      rw [hcore0]
    refine ⟨?_, ?_, ?_⟩
    · simp only [destOf]
      rw [hf.1]
      exact hf.2
    · intro hz hforce
      rw [iterateMapping_single,
        iterateEntry_renamed_group k dd cs doc node doc1 node1 _ hpe]
      rw [hz, hforce]
      simp
    · intro hforce
      rw [iterateMapping_single,
        iterateEntry_renamed_group k dd cs doc node doc1 node1 _ hpe]
      rw [hforce, hne]
      simp

def c3SlotBase : Slot :=
  { enable := some "0", ptype := none, hasValue := true, value := some "1",
    size := none, subs := [] }

def c3SlotSub : Slot :=
  { enable := none, ptype := none, hasValue := false, value := none,
    size := none, subs := [] }

def c3Doc : Doc :=
  { attribs := [], nameParam := none,
    params := [("base", c3SlotBase), ("sub", c3SlotSub)], ports := [] }

def c3Spec : MapSpec := .group [("sub", .identity)]

/-- A node whose "base" attribute is 0 with no connection on "base". -/
def c3NodeA : NodeRec :=
  { name := some "n", ntype := some "t", attributes := [("base", .vint 0)],
    connections := [], renamings := [], weight := none, postprocess := none }

/-- The same node with an active connection on "base". -/
def c3NodeC : NodeRec :=
  { name := some "n", ntype := some "t", attributes := [("base", .vint 0)],
    connections := [("base", ⟨"up", none, none⟩)],
    renamings := [], weight := none, postprocess := none }

/-- The base slot after the zero write: value "0", enable "1". -/
def c3SlotBaseW : Slot :=
  { enable := some "1", ptype := none, hasValue := true, value := some "0",
    size := none, subs := [] }

def c3DocA : Doc :=
  { attribs := [], nameParam := none,
    params := [("base", c3SlotBaseW), ("sub", c3SlotSub)], ports := [] }

/-- Witness for C3: on the unconnected zero-valued node the engine stops
at the entry's own effect (children untouched); on the connected node it
descends into the children. -/
theorem c3_mapping_pruning_witness :
    iterateMapping [("base", c3Spec)] c3Doc c3NodeA = .ok (c3DocA, c3NodeA) ∧
    iterateMapping [("base", c3Spec)] c3Doc c3NodeC =
      iterateMapping [("sub", .identity)] c3Doc c3NodeC := by
  constructor
  · exact (c3_mapping_pruning c3Doc c3NodeA "base" c3Spec [("sub", .identity)]
      c3DocA c3NodeA (.vint 0) false rfl rfl (by decide)).2.1 (by decide) rfl
  · exact (c3_mapping_pruning c3Doc c3NodeC "base" c3Spec [("sub", .identity)]
      c3Doc c3NodeC (.vstr "1") true rfl rfl (by decide)).2.2 rfl

/-! ### Claim C9: records without a name key -/

theorem lookupA_setKey_self {α : Type} : ∀ (m : List (String × α)) (k : String) (v : α),
    lookupA (setKey m k v) k = some v := by
  intro m
  induction m with
  | nil => intro k v; simp [setKey, lookupA]
  | cons p rest ih =>
      intro k v
      obtain ⟨k', v'⟩ := p
      unfold setKey
      by_cases hk : k' = k
      · rw [if_pos hk]
        simp [lookupA]
      · rw [if_neg hk]
        unfold lookupA
        rw [if_neg hk]
        exact ih k v

theorem lookupA_setKey_isSome {α : Type} :
    ∀ (m : List (String × α)) (k q : String) (v : α),
    (lookupA m q).isSome = true → (lookupA (setKey m k v) q).isSome = true := by
  intro m
  induction m with
  | nil => intro k q v h; simp [lookupA] at h
  | cons p rest ih =>
      intro k q v h
      obtain ⟨k', v'⟩ := p
      unfold setKey
      by_cases hk : k' = k
      · rw [if_pos hk]
        by_cases hq : k = q
        · subst hq; simp [lookupA]
        · unfold lookupA at h ⊢
          rw [if_neg hq]
          rw [hk, if_neg hq] at h
          exact h
      · rw [if_neg hk]
        unfold lookupA at h ⊢
        by_cases hq : k' = q
        · rw [if_pos hq]; rfl
        · rw [if_neg hq] at h ⊢
          exact ih k q v h

theorem lookupA_updateAll_isSome {α : Type} :
    ∀ (entries : List (String × α)) (m : List (String × α)) (q : String),
    (lookupA m q).isSome = true → (lookupA (updateAll m entries) q).isSome = true := by
  intro entries
  induction entries with
  | nil => intro m q h; exact h
  | cons e es ih =>
      intro m q h
      exact ih (setKey m e.1 e.2) q (lookupA_setKey_isSome m e.1 q e.2 h)

theorem lookupA_updateAll_mem {α : Type} :
    ∀ (entries : List (String × α)) (m : List (String × α)) (k : String) (rn : α),
    (k, rn) ∈ entries → (lookupA (updateAll m entries) k).isSome = true := by
  intro entries
  induction entries with
  | nil => intro m k rn h; cases h
  | cons e es ih =>
      intro m k rn h
      rcases List.mem_cons.mp h with h1 | h1
      · have hs : (lookupA (setKey m k rn) k).isSome = true := by
          rw [lookupA_setKey_self]; rfl
        rw [← h1]
        exact lookupA_updateAll_isSome es (setKey m k rn) k hs
      · exact ih (setKey m e.1 e.2) k rn h1

theorem collectRenamings_aux :
    ∀ (s : Store) (acc : List (String × Renaming)) (nm : String) (nd : NodeRec)
      (k : String) (rn : Renaming),
      ((nm, nd) ∈ s ∧ (k, rn) ∈ nd.renamings) ∨ (lookupA acc k).isSome = true →
      (lookupA (s.foldl (fun a p => updateAll a p.2.renamings) acc) k).isSome = true := by
  intro s
  induction s with
  | nil =>
      intro acc nm nd k rn h
      rcases h with ⟨h1, _⟩ | h2
      · cases h1
      · exact h2
  | cons q qs ih =>
      intro acc nm nd k rn h
      simp only [List.foldl_cons]
      rcases h with ⟨h1, h2⟩ | h2
      · rcases List.mem_cons.mp h1 with h3 | h3
        · have hq2 : (k, rn) ∈ q.2.renamings := by rw [← h3]; exact h2
          exact ih _ nm nd k rn
            (Or.inr (lookupA_updateAll_mem q.2.renamings acc k rn hq2))
        · exact ih _ nm nd k rn (Or.inl ⟨h3, h2⟩)
      · exact ih _ nm nd k rn (Or.inr (lookupA_updateAll_isSome _ _ _ h2))

theorem collectRenamings_mem (s : Store) (nm : String) (nd : NodeRec)
    (k : String) (rn : Renaming) (h1 : (nm, nd) ∈ s) (h2 : (k, rn) ∈ nd.renamings) :
    (lookupA (collectRenamings s) k).isSome = true :=
  collectRenamings_aux s [] nm nd k rn (Or.inl ⟨h1, h2⟩)

/-- C9: a node record lacking the 'name' key (such as the dummy Empty
record created by ramp preprocessing, clip.py lines 183-190) is never
inserted into the layout tree (every name occurring in the built tree is
"root" or the name of a record that has one), never yields an output
document (processNode skips it), yet its renamings entries are still
collected into the flattened rename table that renameConnections
applies. -/
theorem c9_nameless_records (s : Store) (nm : String) (nd : NodeRec)
    (mappings : List (String × Option (List (String × MapSpec))))
    (templates : String → Option Doc) (x : String) (k : String) (rn : Renaming)
    (hmem : (nm, nd) ∈ s) (hname : nd.name = none) :
    processNode mappings templates nd = .ok none ∧
    (x ∈ treeNames (buildTree s) → x = "root" ∨ ∃ p ∈ s, p.2.name = some x) ∧
    ((k, rn) ∈ nd.renamings → (lookupA (collectRenamings s) k).isSome = true) := by
  refine ⟨?_, buildTree_names s x, fun h2 => collectRenamings_mem s nm nd k rn hmem h2⟩
  unfold processNode
  rw [hname]

/-- The dummy record shape of preprocessRamp: no 'name' key, only
connections and renamings. -/
def c9Empty : NodeRec :=
  { name := none, ntype := none, attributes := [], connections := [],
    renamings := [("old", { name := "new", originalPort := none })],
    weight := none, postprocess := none }

def c9Named : NodeRec :=
  { name := some "A", ntype := some "t", attributes := [], connections := [],
    renamings := [], weight := none, postprocess := none }

def c9Store : Store := [("EmptyA", c9Empty), ("A", c9Named)]

/-- Witness for C9 on a concrete store holding one nameless record and
one named record. -/
theorem c9_nameless_records_witness :
    processNode [] (fun _ => none) c9Empty = .ok none ∧
    ("A" = "root" ∨ ∃ p ∈ c9Store, p.2.name = some "A") ∧
    (lookupA (collectRenamings c9Store) "old").isSome = true := by
  have h := c9_nameless_records c9Store "EmptyA" c9Empty [] (fun _ => none) "A" "old"
    ⟨"new", none⟩ (by decide) rfl
  exact ⟨h.1, h.2.1 (by decide), h.2.2 (by decide)⟩
